import Mathlib

/-!
Shallow embedding of `gsb/parser.py` (the `Parser` class of the
game-server-base repository): command registration and the line-resolution
algorithm `handle_line`.

Modelling conventions:

* Handler functions, argument-pattern matchers and permission predicates are
  opaque capabilities in the source (arbitrary Python callables / compiled
  regular expressions).  They are represented by natural-number identifiers
  resolved through an environment `Env`; this mirrors Python's identity
  semantics for function objects (the `attrs`-generated equality on `Command`
  compares such fields by identity).
* Side effects (`connection.notify`, handler bodies, hook invocations) are
  collected in an explicit event trace.  The events `Event.huhCall` and
  `Event.errorHookCall` record the dispatcher invoking its `huh` / `on_error`
  hooks; the `notify` event that each base implementation performs follows the
  marker in the trace.
* Python dictionaries (`Parser.commands`, `Parser.command_substitutions`,
  keyword-argument dictionaries) are insertion-ordered association lists with
  unique keys; assignment to an existing key replaces the value in place.
* The classes `Caller`, `Command` and the raised class `DontStopException`
  live in `gsb/caller.py` and `gsb/command.py`, which are not part of the
  sources at hand; their shape is modelled from the spec (data model of
  Command and Caller, continuation signal), as noted on each definition.
-/

/-- Outcome of running a command handler on a caller.  Modelled from the spec:
a handler either completes normally, raises the continuation signal
(`DontStopException` from `gsb/caller.py`, the designated "try the next
candidate" condition), or raises some other error (carried as an opaque
identifier). -/
inductive Outcome where
  | ok : Outcome
  | dontStop : Outcome
  | err : Nat → Outcome
deriving DecidableEq, Repr

/-- Modelled from the spec: the per-invocation context object from
`gsb/caller.py`.  Fields are populated incrementally by `handle_line`:
`connection` and `text` at construction, then `command`/`args_str` after
tokenization, then `args`/`kwargs` after pattern matching, and `exception`
when a handler faults. -/
structure Caller where
  connection : Nat
  text : String
  command : String := ""
  args_str : String := ""
  args : List (Option String) := []
  kwargs : List (String × Option String) := []
  exception : Option Nat := none
deriving DecidableEq, Repr

/-- An observable side effect a handler body may perform. -/
inductive HEffect where
  | notify : Nat → String → HEffect
  | effect : Nat → HEffect
deriving DecidableEq, Repr

/-- An entry of the observable trace of one `handle_line` call. -/
inductive Event where
  | notify : Nat → String → Event
  | effect : Nat → Event
  | huhCall : Caller → Event
  | errorHookCall : Caller → Event
deriving DecidableEq, Repr

/-- View a handler side effect as a trace event. -/
def HEffect.toEvent : HEffect → Event
  | .notify c m => .notify c m
  | .effect t => .effect t

/-- Modelled from the spec: the registration record from `gsb/command.py`,
binding invocation names to a handler, a permission predicate, an optional
argument pattern and descriptive text.  `func`, `args_regexp` and `allowed`
are identifiers of opaque capabilities; `allowed = none` is the registration
default `lambda caller: True`. -/
structure Command where
  func : Nat
  names : List String
  description : String
  help : String
  args_regexp : Option Nat
  allowed : Option Nat
deriving DecidableEq, Repr

/-- Environment resolving the opaque capability identifiers: handler bodies
(returning their side effects and an outcome), argument patterns (returning
`groups` and `groupdict` captures or `none` for no-match), and permission
predicates. -/
structure Env where
  handlers : Nat → Caller → List HEffect × Outcome
  patterns : Nat → String → Option (List (Option String) × List (String × Option String))
  alloweds : Nat → Caller → Bool

/-- The `Parser` of `gsb/parser.py`.  `pre_command` is the overridable hook
method (base implementation returns `True`). -/
structure Parser where
  command_separator : String := " "
  default_args_regexp : Option Nat := none
  commands : List (String × List Command) := []
  command_substitutions : List (Char × String) := []
  pre_command : Caller → Bool := fun _ => true

/-- Association-list lookup, the model of Python dictionary indexing. -/
def alookup {κ α : Type} [DecidableEq κ] : List (κ × α) → κ → Option α
  | [], _ => none
  | kv :: rest, key => if kv.1 = key then some kv.2 else alookup rest key

/-- Python dictionary assignment `d[k] = v`: replace in place when the key is
present (insertion order preserved), append otherwise. -/
def dictSet {κ α : Type} [DecidableEq κ] (d : List (κ × α)) (k : κ) (v : α) : List (κ × α) :=
  if (alookup d k).isSome then d.map (fun kv => if kv.1 = k then (k, v) else kv)
  else d ++ [(k, v)]

/-- Python `d.get(k, dflt)`. -/
def dictGetD {κ α : Type} [DecidableEq κ] (d : List (κ × α)) (k : κ) (dflt : α) : α :=
  (alookup d k).getD dflt

/-- Whether `pre` is a prefix of the second list. -/
def isPrefixList : List Char → List Char → Bool
  | [], _ => true
  | _ :: _, [] => false
  | a :: as, b :: bs => a = b && isPrefixList as bs

/-- Split at the first occurrence of the (non-empty) separator `sep`,
returning the parts before and after it; `none` when `sep` does not occur.
This models the search performed by Python's `str.split(sep, 1)`. -/
def splitFirst (sep : List Char) : List Char → Option (List Char × List Char)
  | [] => none
  | c :: cs =>
    if isPrefixList sep (c :: cs) then some ([], (c :: cs).drop sep.length)
    else
      match splitFirst sep cs with
      | some (pre, post) => some (c :: pre, post)
      | none => none

/-- Line 134: `Parser.split`.  `line.split(self.command_separator, 1)`, with
the second component defaulting to the empty string when the separator does
not occur. -/
def Parser.split (p : Parser) (line : String) : String × String :=
  match splitFirst p.command_separator.data line.data with
  | some (pre, post) => (String.mk pre, String.mk post)
  | none => (line, "")

/-- Line 146: `Parser.get_commands`. -/
def get_commands (p : Parser) (name : String) : List Command :=
  dictGetD p.commands name []

/-- The body of the inner loop of `all_commands` (line 29): append the
command unless it was already collected. -/
def insertAbsent (l : List Command) (cmd : Command) : List Command :=
  if cmd ∈ l then l else l ++ [cmd]

/-- Line 24: `Parser.all_commands` — collect every command object present on
the parser, skipping ones already collected. -/
def all_commands (p : Parser) : List Command :=
  p.commands.foldl (fun l entry => entry.2.foldl insertAbsent l) []

/-- Line 33: the trace of `Parser.huh` — the catch-all hook; the marker
records the hook invocation, followed by its notification. -/
def huh_events (caller : Caller) : List Event :=
  [.huhCall caller, .notify caller.connection "I don't understand that."]

/-- Line 48: the trace of `Parser.on_error` — the error hook; the marker
records the hook invocation, followed by its notification. -/
def on_error_events (caller : Caller) : List Event :=
  [.errorHookCall caller, .notify caller.connection "There was an error with your command."]

/-- Line 150: `Parser.explain_substitution` as the notification it sends. -/
def explain_sub_event (p : Parser) (conn : Nat) (short : Char) (long : String) : Event :=
  .notify conn
    ("Instead of typing \"" ++ long ++ p.command_separator ++ "\", you can type "
      ++ String.mk [short] ++ ".")

/-- Line 159: the trace of `Parser.explain` — joined names, substitution
hints, description, help. -/
def explain (p : Parser) (cmd : Command) (conn : Nat) : List Event :=
  [.notify conn (String.intercalate " or " cmd.names ++ ":")]
    ++ p.command_substitutions.filterMap
      (fun kv => if kv.2 ∈ cmd.names then some (explain_sub_event p conn kv.1 kv.2) else none)
    ++ [.notify conn cmd.description, .notify conn cmd.help]

/-- Modelled from the spec (and line 183's call site): `Command.ok_for`
evaluates the command's permission predicate on the caller; the registration
default (`allowed = none`) is always-true. -/
def Command.ok_for (env : Env) (cmd : Command) (caller : Caller) : Bool :=
  match cmd.allowed with
  | none => true
  | some aid => env.alloweds aid caller

/-- Lines 184–193 (without the explain/break case): if the command declares no
argument pattern, set empty captures; otherwise run the pattern on the
caller's argument text and store `groups`/`groupdict`, or report no-match. -/
def applyCaptures (env : Env) (cmd : Command) (caller : Caller) : Option Caller :=
  match cmd.args_regexp with
  | none => some { caller with args := [], kwargs := [] }
  | some pid =>
    match env.patterns pid caller.args_str with
    | none => none
    | some (gs, gd) => some { caller with args := gs, kwargs := gd }

/-- Result of the candidate loop of `handle_line`: trace of emitted events,
the `commands` counter, the caller as mutated so far, and whether the loop
ended with `break` (so the `for`/`else` clause is skipped). -/
structure LoopResult where
  trace : List Event
  count : Nat
  caller : Caller
  broke : Bool
deriving DecidableEq, Repr

/-- Lines 182–208: the candidate iteration of `handle_line`.  Skips
disallowed candidates; on pattern no-match explains and breaks; on a match
increments the counter and runs the handler — normal completion breaks, the
continuation signal moves on, and any other error is captured on the caller,
the error hook runs, and iteration proceeds. -/
def candidateLoop (env : Env) (p : Parser) :
    List Command → Caller → Nat → List Event → LoopResult
  | [], caller, k, tr => ⟨tr, k, caller, false⟩
  | cmd :: rest, caller, k, tr =>
    if Command.ok_for env cmd caller then
      match applyCaptures env cmd caller with
      | none => ⟨tr ++ explain p cmd caller.connection, k, caller, true⟩
      | some caller1 =>
        match env.handlers cmd.func caller1 with
        | (effs, .ok) => ⟨tr ++ effs.map HEffect.toEvent, k + 1, caller1, true⟩
        | (effs, .dontStop) =>
          candidateLoop env p rest caller1 (k + 1) (tr ++ effs.map HEffect.toEvent)
        | (effs, .err e) =>
          candidateLoop env p rest { caller1 with exception := some e } (k + 1)
            (tr ++ effs.map HEffect.toEvent
              ++ on_error_events { caller1 with exception := some e })
    else candidateLoop env p rest caller k tr

/-- Lines 171–174: substitution expansion — when the line is non-empty and its
first character is a key of the substitution table, replace the line with the
mapped name, the separator, and the rest of the line. -/
def substituteLine (p : Parser) (line : String) : String :=
  match line.data with
  | [] => line
  | c :: cs =>
    match alookup p.command_substitutions c with
    | some long => long ++ p.command_separator ++ String.mk cs
    | none => line

/-- The initial caller of line 175: `Caller(connection, text=line)`. -/
def mkCaller (conn : Nat) (text : String) : Caller :=
  { connection := conn, text := text }

/-- What one `handle_line` call returns and observably does: the parser as it
stands afterwards, the emitted trace, the Python return value (`commands`
when non-zero, else `None`), and the final state of the caller. -/
structure HandleOutcome where
  parser : Parser
  trace : List Event
  result : Option Nat
  caller : Caller

/-- A decorated Python function, as the registration machinery sees it: an
identity (the handler identifier used by `Env.handlers`), an optional
`__name__` attribute and an optional docstring. -/
structure Func where
  fid : Nat
  fname : Option String := none
  doc : Option String := none
deriving DecidableEq, Repr

/-- Line 53: `Parser.make_command_names` — `getattr(func, '__name__', 'command')`. -/
def make_command_names (f : Func) : List String :=
  [f.fname.getD "command"]

/-- Line 57: `Parser.make_command_description` — `func.__doc__ or 'No description available.'`
(an absent or empty docstring is falsy). -/
def make_command_description (f : Func) : String :=
  match f.doc with
  | some d => if d = "" then "No description available." else d
  | none => "No description available."

/-- Line 61: `Parser.make_command_help`. -/
def make_command_help (_f : Func) : String :=
  "No help available."

/-- A value bound to a keyword argument of `Parser.command`.  The constructor
names the keyword the value is meant for; kwargs dictionaries are assumed
well-typed per key (anything else fails in Python when the `Command`
constructor runs). -/
inductive KwVal where
  | names : List String → KwVal
  | description : String → KwVal
  | help : String → KwVal
  | args_regexp : Option Nat → KwVal
  | allowed : Option Nat → KwVal
deriving DecidableEq, Repr

/-- Lines 85–127: `Parser.command` — pop each constructor argument from the
keyword dictionary with its generated default, build the `Command`, and
append it to `commands[name]` for every name (creating entries as needed);
returns the updated parser together with the Command the decorator returns. -/
def commandReg (p : Parser) (f : Func) (kw : List (String × KwVal)) : Parser × Command :=
  let names :=
    match alookup kw "names" with
    | some (.names ns) => ns
    | _ => make_command_names f
  let description :=
    match alookup kw "description" with
    | some (.description d) => d
    | _ => make_command_description f
  let help :=
    match alookup kw "help" with
    | some (.help h) => h
    | _ => make_command_help f
  let args_regexp :=
    match alookup kw "args_regexp" with
    | some (.args_regexp r) => r
    | _ => p.default_args_regexp
  let allowed :=
    match alookup kw "allowed" with
    | some (.allowed a) => a
    | _ => none
  let c : Command := ⟨f.fid, names, description, help, args_regexp, allowed⟩
  let cmds := c.names.foldl (fun d n => dictSet d n (dictGetD d n [] ++ [c])) p.commands
  ({ p with commands := cmds }, c)

/-- One iteration of the `for key, value in kwargs.items()` loop of lines
69–77 — warn when the key is already bound in the caller's dictionary, then
assign the pre-filled value (`kw[key] = value`). -/
def dkStep (acc : List (String × KwVal) × List String) (kv : String × KwVal) :
    List (String × KwVal) × List String :=
  (dictSet acc.1 kv.1 kv.2,
    if (alookup acc.1 kv.1).isSome then acc.2 ++ [kv.1] else acc.2)

/-- Lines 65–78: the keyword merge performed by the wrapper `f` that
`Parser.default_kwargs` yields — every pre-filled default is written into the
caller's keyword dictionary, warning on collision.  Returns the merged
dictionary and the keys warned about. -/
def default_kwargs_apply (defaults kw : List (String × KwVal)) :
    List (String × KwVal) × List String :=
  defaults.foldl dkStep (kw, [])

/-- Registering through the wrapper yielded by `default_kwargs`: merge the
defaults into the caller's kwargs, then call `Parser.command`. -/
def default_kwargs_reg (p : Parser) (defaults : List (String × KwVal)) (f : Func)
    (kw : List (String × KwVal)) : Parser × Command :=
  commandReg p f (default_kwargs_apply defaults kw).1

/-- Keep the first occurrence of every element, in traversal order: the
reference description of what `all_commands` computes. -/
def keepFirstOccurrences : List Command → List Command
  | [] => []
  | c :: cs => c :: keepFirstOccurrences (cs.filter (fun x => x ≠ c))
termination_by l => l.length
decreasing_by
  simp only [List.length_cons]
  exact Nat.lt_succ_of_le (List.length_filter_le _ _)

/-- Lines 168–213: `Parser.handle_line`.  Substitution expansion, caller
construction, the `pre_command` veto, tokenization, the candidate loop, the
`for`/`else` catch-all, and the final return value. -/
def handle_line (env : Env) (p : Parser) (conn : Nat) (line : String) : HandleOutcome :=
  let line1 := substituteLine p line
  let caller := mkCaller conn line1
  if p.pre_command caller then
    let (command, args) := p.split line1
    let caller := { caller with command := command, args_str := args }
    let r := candidateLoop env p (get_commands p command) caller 0 []
    let trace := if r.broke = false ∧ r.count = 0 then r.trace ++ huh_events r.caller else r.trace
    { parser := p, trace := trace,
      result := if r.count = 0 then none else some r.count, caller := r.caller }
  else { parser := p, trace := [], result := none, caller := caller }

/-! Helper predicates and lemmas. -/

/-- Whether an event is an invocation of the catch-all hook. -/
def isHuhCall : Event → Bool
  | .huhCall _ => true
  | _ => false

/-- Whether an event is an invocation of the error hook. -/
def isErrorHookCall : Event → Bool
  | .errorHookCall _ => true
  | _ => false

@[simp] theorem isHuhCall_toEvent (e : HEffect) : isHuhCall e.toEvent = false := by
  cases e <;> rfl

@[simp] theorem isErrorHookCall_toEvent (e : HEffect) : isErrorHookCall e.toEvent = false := by
  cases e <;> rfl

theorem hEffect_filter_huh (effs : List HEffect) :
    (effs.map HEffect.toEvent).filter isHuhCall = [] := by
  induction effs with
  | nil => rfl
  | cons e es ih => simp [List.filter_cons, ih]

theorem hEffect_filter_err (effs : List HEffect) :
    (effs.map HEffect.toEvent).filter isErrorHookCall = [] := by
  induction effs with
  | nil => rfl
  | cons e es ih => simp [List.filter_cons, ih]

theorem filter_cons_false {q : Event → Bool} {a : Event} (h : q a = false) (l : List Event) :
    List.filter q (a :: l) = List.filter q l := by
  rw [List.filter_cons, h, if_neg Bool.false_ne_true]

/-- Every event that `explain` emits is a plain notification, so any
predicate that is false on notifications filters its trace to nothing. -/
theorem explain_filter_eq_nil (p : Parser) (cmd : Command) (conn : Nat) (q : Event → Bool)
    (hq : ∀ c m, q (.notify c m) = false) :
    (explain p cmd conn).filter q = [] := by
  have hsubs : ∀ subs : List (Char × String),
      (subs.filterMap
        (fun kv => if kv.2 ∈ cmd.names then some (explain_sub_event p conn kv.1 kv.2)
          else none)).filter q = [] := by
    intro subs
    induction subs with
    | nil => rfl
    | cons kv rest ih =>
      rw [List.filterMap_cons]
      split
      · exact ih
      · rename_i b heq
        split at heq
        · cases heq
          rw [filter_cons_false (show q (explain_sub_event p conn kv.1 kv.2) = false from hq _ _)]
          exact ih
        · exact Option.noConfusion heq
  unfold explain
  rw [List.filter_append, List.filter_append, hsubs,
    filter_cons_false (hq _ _), filter_cons_false (hq _ _), filter_cons_false (hq _ _)]
  rfl

theorem on_error_filter_huh (c : Caller) :
    (on_error_events c).filter isHuhCall = [] := rfl

theorem huh_events_filter_huh (c : Caller) :
    (huh_events c).filter isHuhCall = [.huhCall c] := rfl

/-- The candidate loop never invokes the catch-all hook itself. -/
theorem candidateLoop_filter_huh (env : Env) (p : Parser) (cmds : List Command)
    (caller : Caller) (k : Nat) (tr : List Event) :
    (candidateLoop env p cmds caller k tr).trace.filter isHuhCall = tr.filter isHuhCall := by
  induction cmds generalizing caller k tr with
  | nil => rfl
  | cons cmd rest ih =>
    simp only [candidateLoop]
    split
    · split
      · rw [List.filter_append,
          explain_filter_eq_nil p cmd caller.connection isHuhCall (fun _ _ => rfl),
          List.append_nil]
      · split
        · rw [List.filter_append, hEffect_filter_huh, List.append_nil]
        · rw [ih, List.filter_append, hEffect_filter_huh, List.append_nil]
        · rw [ih, List.filter_append, List.filter_append, hEffect_filter_huh,
            on_error_filter_huh, List.append_nil, List.append_nil]
    · exact ih caller k tr

theorem applyCaptures_text (env : Env) (cmd : Command) (caller caller1 : Caller)
    (h : applyCaptures env cmd caller = some caller1) :
    caller1.text = caller.text ∧ caller1.connection = caller.connection := by
  unfold applyCaptures at h
  split at h
  · cases h; exact ⟨rfl, rfl⟩
  · split at h
    · exact Option.noConfusion h
    · cases h; exact ⟨rfl, rfl⟩

/-- The candidate loop leaves the caller's `text` field alone. -/
theorem candidateLoop_text (env : Env) (p : Parser) (cmds : List Command)
    (caller : Caller) (k : Nat) (tr : List Event) :
    (candidateLoop env p cmds caller k tr).caller.text = caller.text := by
  induction cmds generalizing caller k tr with
  | nil => rfl
  | cons cmd rest ih =>
    simp only [candidateLoop]
    split
    · split
      · rfl
      · rename_i caller1 hcap
        have htext := (applyCaptures_text env cmd caller caller1 hcap).1
        split
        · exact htext
        · rw [ih]; exact htext
        · rw [ih]; exact htext
    · exact ih caller k tr

/-- The text recorded on the caller is exactly the once-substituted line. -/
theorem handle_line_text (env : Env) (p : Parser) (conn : Nat) (line : String) :
    (handle_line env p conn line).caller.text = substituteLine p line := by
  simp only [handle_line]
  split
  · rcases hsp : Parser.split p (substituteLine p line) with ⟨tok, rest⟩
    simp [candidateLoop_text, mkCaller]
  · rfl

theorem alookup_replace {κ α : Type} [DecidableEq κ] (d : List (κ × α)) (k : κ) (v : α)
    (h : (alookup d k).isSome) :
    alookup (d.map (fun kv => if kv.1 = k then (k, v) else kv)) k = some v := by
  induction d with
  | nil => simp [alookup] at h
  | cons kv rest ih =>
    by_cases hk : kv.1 = k
    · simp [alookup, hk]
    · simp only [alookup, hk, if_false] at h
      simp only [List.map_cons, if_neg hk, alookup, hk, if_false]
      exact ih h

theorem alookup_replace_ne {κ α : Type} [DecidableEq κ] (d : List (κ × α)) (k : κ) (v : α)
    (k' : κ) (h : k' ≠ k) :
    alookup (d.map (fun kv => if kv.1 = k then (k, v) else kv)) k' = alookup d k' := by
  induction d with
  | nil => rfl
  | cons kv rest ih =>
    simp only [List.map_cons, alookup]
    by_cases hk : kv.1 = k
    · rw [if_pos hk]
      dsimp only
      rw [if_neg (fun hh : k = k' => h hh.symm),
        if_neg (fun hh : kv.1 = k' => h (hk.symm.trans hh).symm)]
      exact ih
    · rw [if_neg hk]
      split
      · rfl
      · exact ih

theorem alookup_append_of_none {κ α : Type} [DecidableEq κ] (d₁ d₂ : List (κ × α)) (k : κ)
    (h : alookup d₁ k = none) :
    alookup (d₁ ++ d₂) k = alookup d₂ k := by
  induction d₁ with
  | nil => rfl
  | cons kv rest ih =>
    simp only [alookup] at h
    split at h
    · exact Option.noConfusion h
    · rename_i hk
      simp only [List.cons_append, alookup, hk, if_false]
      exact ih h

theorem alookup_append_singleton_ne {κ α : Type} [DecidableEq κ] (d : List (κ × α)) (k : κ)
    (v : α) (k' : κ) (h : k' ≠ k) :
    alookup (d ++ [(k, v)]) k' = alookup d k' := by
  induction d with
  | nil =>
    dsimp only [List.nil_append, alookup]
    exact if_neg (fun hh : k = k' => h hh.symm)
  | cons kv rest ih =>
    simp only [List.cons_append, alookup]
    split
    · rfl
    · exact ih

theorem alookup_dictSet_self {κ α : Type} [DecidableEq κ] (d : List (κ × α)) (k : κ) (v : α) :
    alookup (dictSet d k v) k = some v := by
  unfold dictSet
  split
  · exact alookup_replace d k v (by assumption)
  · rename_i h
    rw [alookup_append_of_none d [(k, v)] k (Option.not_isSome_iff_eq_none.mp h)]
    simp [alookup]

theorem alookup_dictSet_ne {κ α : Type} [DecidableEq κ] (d : List (κ × α)) (k : κ) (v : α)
    (k' : κ) (h : k' ≠ k) :
    alookup (dictSet d k v) k' = alookup d k' := by
  unfold dictSet
  split
  · exact alookup_replace_ne d k v k' h
  · exact alookup_append_singleton_ne d k v k' h

theorem isSome_alookup_dictSet {κ α : Type} [DecidableEq κ] (d : List (κ × α)) (k : κ) (v : α)
    (k' : κ) (h : (alookup d k').isSome) :
    (alookup (dictSet d k v) k').isSome := by
  by_cases hk : k' = k
  · subst hk; rw [alookup_dictSet_self]; rfl
  · rw [alookup_dictSet_ne d k v k' hk]; exact h

theorem dk_fold_fst_notmem (ds : List (String × KwVal))
    (acc : List (String × KwVal) × List String) (k : String)
    (h : k ∉ ds.map Prod.fst) :
    alookup (ds.foldl dkStep acc).1 k = alookup acc.1 k := by
  induction ds generalizing acc with
  | nil => rfl
  | cons kv rest ih =>
    simp only [List.map_cons, List.mem_cons, not_or] at h
    rw [List.foldl_cons, ih (dkStep acc kv) h.2]
    exact alookup_dictSet_ne acc.1 kv.1 kv.2 k h.1

theorem dk_fold_snd_mem (ds : List (String × KwVal))
    (acc : List (String × KwVal) × List String) (w : String) (h : w ∈ acc.2) :
    w ∈ (ds.foldl dkStep acc).2 := by
  induction ds generalizing acc with
  | nil => exact h
  | cons kv rest ih =>
    rw [List.foldl_cons]
    apply ih
    dsimp only [dkStep]
    split
    · exact List.mem_append_left _ h
    · exact h

/-- During the keyword merge, a key bound both among the defaults and in the
starting dictionary ends up with the default's value, and is warned about. -/
theorem dk_fold_main (ds : List (String × KwVal)) (k : String) :
    (ds.map Prod.fst).Nodup →
    ∀ acc : List (String × KwVal) × List String,
      (alookup ds k).isSome → (alookup acc.1 k).isSome →
      alookup (ds.foldl dkStep acc).1 k = alookup ds k ∧ k ∈ (ds.foldl dkStep acc).2 := by
  induction ds with
  | nil => intro _ acc hd _; simp [alookup] at hd
  | cons kv rest ih =>
    intro hnd acc hd ha
    obtain ⟨hn0, hnd'⟩ := List.nodup_cons.mp hnd
    rw [List.foldl_cons]
    by_cases hk : kv.1 = k
    · have hnotin : k ∉ rest.map Prod.fst := hk ▸ hn0
      constructor
      · rw [dk_fold_fst_notmem rest (dkStep acc kv) k hnotin]
        dsimp only [dkStep]
        rw [show dictSet acc.1 kv.1 kv.2 = dictSet acc.1 k kv.2 from by rw [hk],
          alookup_dictSet_self]
        dsimp only [alookup]
        rw [if_pos hk]
      · apply dk_fold_snd_mem
        dsimp only [dkStep]
        rw [if_pos (hk ▸ ha)]
        exact List.mem_append_right _ (hk ▸ List.mem_singleton_self kv.1)
    · have hd' : (alookup rest k).isSome := by
        dsimp only [alookup] at hd
        rwa [if_neg hk] at hd
      have ha' : (alookup (dkStep acc kv).1 k).isSome := by
        dsimp only [dkStep]
        exact isSome_alookup_dictSet acc.1 kv.1 kv.2 k ha
      have IH := ih hnd' (dkStep acc kv) hd' ha'
      refine ⟨?_, IH.2⟩
      rw [IH.1]
      dsimp only [alookup]
      rw [if_neg hk]

/-- The registration loop of `Parser.command`: appending the new command to
the entry of every one of its (distinct) names, leaving other entries
untouched. -/
theorem reg_fold (c : Command) : ∀ names : List String, names.Nodup →
    ∀ d : List (String × List Command),
      (∀ n ∈ names,
        dictGetD (names.foldl (fun d n => dictSet d n (dictGetD d n [] ++ [c])) d) n []
          = dictGetD d n [] ++ [c])
      ∧ (∀ n, n ∉ names →
        dictGetD (names.foldl (fun d n => dictSet d n (dictGetD d n [] ++ [c])) d) n []
          = dictGetD d n []) := by
  intro names
  induction names with
  | nil =>
    intro _ d
    exact ⟨fun n hn => absurd hn (List.not_mem_nil n), fun n _ => rfl⟩
  | cons n0 ns ih =>
    intro hnd d
    obtain ⟨hn0, hnd'⟩ := List.nodup_cons.mp hnd
    have IH := ih hnd' (dictSet d n0 (dictGetD d n0 [] ++ [c]))
    rw [List.foldl_cons]
    constructor
    · intro n hn
      rcases List.mem_cons.mp hn with rfl | hn
      · rw [IH.2 n hn0]
        unfold dictGetD
        rw [alookup_dictSet_self]
        rfl
      · have hne : n ≠ n0 := fun h => hn0 (h ▸ hn)
        rw [IH.1 n hn]
        unfold dictGetD
        rw [alookup_dictSet_ne d n0 _ n hne]
    · intro n hn
      have h1 : n ≠ n0 := fun h => hn (h ▸ List.mem_cons_self n0 ns)
      have h2 : n ∉ ns := fun h => hn (List.mem_cons_of_mem n0 h)
      rw [IH.2 n h2]
      unfold dictGetD
      rw [alookup_dictSet_ne d n0 _ n h1]

theorem foldl_insertAbsent_flat (ls : List (String × List Command)) (acc : List Command) :
    ls.foldl (fun l entry => entry.2.foldl insertAbsent l) acc
      = (ls.flatMap Prod.snd).foldl insertAbsent acc := by
  induction ls generalizing acc with
  | nil => rfl
  | cons e ls ih =>
    rw [List.foldl_cons, ih, List.flatMap_cons, List.foldl_append]

theorem keepFirstOccurrences_cons (x : Command) (xs : List Command) :
    keepFirstOccurrences (x :: xs)
      = x :: keepFirstOccurrences (xs.filter (fun y => y ≠ x)) := by
  rw [keepFirstOccurrences]

theorem foldl_insertAbsent_keepFirst (xs : List Command) : ∀ acc : List Command,
    xs.foldl insertAbsent acc
      = acc ++ keepFirstOccurrences (xs.filter (fun x => decide (x ∉ acc))) := by
  induction xs with
  | nil => intro acc; simp [keepFirstOccurrences]
  | cons x xs ih =>
    intro acc
    rw [List.foldl_cons, List.filter_cons]
    by_cases hx : x ∈ acc
    · rw [show insertAbsent acc x = acc from if_pos hx,
        show decide (x ∉ acc) = false from by simp [hx], if_neg Bool.false_ne_true]
      exact ih acc
    · rw [show insertAbsent acc x = acc ++ [x] from if_neg hx,
        show decide (x ∉ acc) = true from by simp [hx], if_pos rfl,
        keepFirstOccurrences_cons, ih (acc ++ [x]), List.append_assoc, List.singleton_append]
      have hfil : (xs.filter (fun y => decide (y ∉ acc ++ [x])))
          = (xs.filter (fun y => decide (y ∉ acc))).filter (fun y => y ≠ x) := by
        rw [List.filter_filter]
        apply List.filter_congr
        intro y _
        rw [← Bool.decide_and, decide_eq_decide]
        simp [List.mem_append, not_or, and_comm]
      rw [hfil]

theorem insertAbsent_nodup (l : List Command) (c : Command) (h : l.Nodup) :
    (insertAbsent l c).Nodup := by
  unfold insertAbsent
  split
  · exact h
  · rename_i hc
    simp [List.nodup_append, h, hc]

theorem foldl_insertAbsent_nodup (xs : List Command) : ∀ acc : List Command,
    acc.Nodup → (xs.foldl insertAbsent acc).Nodup := by
  induction xs with
  | nil => intro acc h; exact h
  | cons x xs ih =>
    intro acc h
    rw [List.foldl_cons]
    exact ih _ (insertAbsent_nodup acc x h)

theorem mem_insertAbsent (l : List Command) (c a : Command) :
    a ∈ insertAbsent l c ↔ a ∈ l ∨ a = c := by
  unfold insertAbsent
  split
  · rename_i hc
    constructor
    · exact fun h => Or.inl h
    · rintro (h | rfl)
      · exact h
      · exact hc
  · simp [List.mem_append]

theorem mem_foldl_insertAbsent (xs : List Command) : ∀ (acc : List Command) (a : Command),
    a ∈ xs.foldl insertAbsent acc ↔ a ∈ acc ∨ a ∈ xs := by
  induction xs with
  | nil => intro acc a; simp
  | cons x xs ih =>
    intro acc a
    rw [List.foldl_cons, ih, mem_insertAbsent]
    simp [or_assoc]

theorem splitFirst_single (s : Char) (v rest : List Char) (hv : s ∉ v) :
    splitFirst [s] (v ++ s :: rest) = some (v, rest) := by
  induction v with
  | nil =>
    simp only [List.nil_append, splitFirst]
    rw [if_pos (show isPrefixList [s] (s :: rest) = true from by simp [isPrefixList])]
    rfl
  | cons c cs ih =>
    have hc : ¬(s = c) := fun h => hv (h ▸ List.mem_cons_self c cs)
    have hcs : s ∉ cs := fun h => hv (List.mem_cons_of_mem c h)
    simp only [List.cons_append, splitFirst, List.append_eq]
    rw [show isPrefixList [s] (c :: (cs ++ s :: rest)) = false from by simp [isPrefixList, hc],
      if_neg Bool.false_ne_true, ih hcs]

/-- Splitting `v ++ sep ++ r` on a single-character separator absent from `v`
yields exactly `(v, r)`. -/
theorem split_token (p : Parser) (s : Char) (hsep : p.command_separator = String.mk [s])
    (v rst : String) (hv : s ∉ v.data) :
    p.split (v ++ p.command_separator ++ rst) = (v, rst) := by
  unfold Parser.split
  rw [hsep]
  have hd : (v ++ String.mk [s] ++ rst).data = v.data ++ s :: rst.data := by
    rw [String.data_append, String.data_append]
    simp [List.append_assoc]
  rw [hd, show (String.mk [s]).data = [s] from rfl, splitFirst_single s v.data rst.data hv]

/-- Substitution expansion on a line whose first character is a registered
key. -/
theorem substituteLine_hit (p : Parser) (line : String) (c : Char) (cs : List Char)
    (v : String) (h1 : line.data = c :: cs) (h2 : alookup p.command_substitutions c = some v) :
    substituteLine p line = v ++ p.command_separator ++ String.mk cs := by
  unfold substituteLine
  rw [h1]
  dsimp only
  rw [h2]

/-- Substitution expansion leaves a line alone when its first character is
not a registered key, and likewise an empty line. -/
theorem substituteLine_miss (p : Parser) (line : String) :
    (∀ c cs, line.data = c :: cs → alookup p.command_substitutions c = none →
      substituteLine p line = line)
    ∧ (line.data = [] → substituteLine p line = line) := by
  constructor
  · intro c cs h1 h2
    unfold substituteLine
    rw [h1]
    dsimp only
    rw [h2]
  · intro h1
    unfold substituteLine
    rw [h1]

/-! Concrete fixtures used by witnesses and counterexamples. -/

/-- An environment with inert capabilities. -/
def envW : Env := ⟨fun _ _ => ([], .ok), fun _ _ => none, fun _ _ => true⟩

/-- A parser with every field at its class default. -/
def pEmpty : Parser := {}

/-- A command whose pattern (id 5) never matches under `envC4`. -/
def cmdFailW : Command := ⟨21, ["say"], "dF", "hF", some 5, none⟩

/-- A command with no pattern, registered after `cmdFailW`. -/
def cmdOkW : Command := ⟨22, ["say"], "dO", "hO", none, none⟩

/-- Environment whose every pattern reports no-match. -/
def envC4 : Env := ⟨fun _ _ => ([.effect 9], .ok), fun _ _ => none, fun _ _ => true⟩

/-- A caller mid-resolution for token `say` with remainder `x`. -/
def callerC4 : Caller := ⟨3, "say x", "say", "x", [], [], none⟩

/-- A command whose handler (id 31) faults under `envC5`. -/
def cmdErrW : Command := ⟨31, ["boom"], "dE", "hE", none, none⟩

/-- A sibling command registered after `cmdErrW`. -/
def cmdAfterW : Command := ⟨32, ["boom"], "dA", "hA", none, none⟩

/-- Environment where handler 31 raises error 7 and all others complete. -/
def envC5 : Env :=
  ⟨fun hid _ => if hid = 31 then ([.effect 31], .err 7) else ([.effect 32], .ok),
    fun _ _ => none, fun _ _ => true⟩

/-- A caller mid-resolution for token `boom` with empty remainder. -/
def callerC5 : Caller := ⟨4, "boom", "boom", "", [], [], none⟩

/-- A parser whose `pre_command` hook vetoes everything. -/
def pVeto : Parser := { pre_command := fun _ => false }

/-! Claim theorems. -/

/-- Claim C4: during candidate iteration, an allowed candidate whose declared
argument pattern fails to match the remainder makes `handle_line` emit an
explanation of that candidate to the session and stop the entire iteration —
the result does not depend on the remaining candidates at all, so no later
candidate under the same name is attempted, even one that would have
matched. -/
theorem pattern_no_match_stops_iteration (env : Env) (p : Parser) (cmd : Command)
    (rest : List Command) (caller : Caller) (k : Nat) (tr : List Event) (pid : Nat)
    (hok : Command.ok_for env cmd caller = true)
    (hre : cmd.args_regexp = some pid)
    (hm : env.patterns pid caller.args_str = none) :
    candidateLoop env p (cmd :: rest) caller k tr
      = ⟨tr ++ explain p cmd caller.connection, k, caller, true⟩ := by
  simp [candidateLoop, applyCaptures, hok, hre, hm]

/-- Witness for C4 at a concrete registry: the failing first candidate
preempts a second candidate that would have matched. -/
theorem pattern_no_match_stops_iteration_witness :
    candidateLoop envC4 pEmpty (cmdFailW :: [cmdOkW]) callerC4 0 []
      = ⟨[] ++ explain pEmpty cmdFailW callerC4.connection, 0, callerC4, true⟩ :=
  pattern_no_match_stops_iteration envC4 pEmpty cmdFailW [cmdOkW] callerC4 0 [] 5
    rfl rfl rfl

/-- Claim C5: a handler that raises a non-continuation error has the error
captured on the caller's `exception` field, the error hook invoked exactly
once for it (the appended trace segment holds exactly one hook marker, and
handler effects hold none), and iteration proceeding with the remaining
candidates; `handle_line` itself is a total function, so nothing propagates
across its boundary. -/
theorem handler_fault_isolation (env : Env) (p : Parser) (cmd : Command)
    (rest : List Command) (caller caller1 : Caller) (k : Nat) (tr : List Event)
    (effs : List HEffect) (e : Nat)
    (hok : Command.ok_for env cmd caller = true)
    (hcap : applyCaptures env cmd caller = some caller1)
    (hh : env.handlers cmd.func caller1 = (effs, .err e)) :
    candidateLoop env p (cmd :: rest) caller k tr
      = candidateLoop env p rest { caller1 with exception := some e } (k + 1)
          (tr ++ effs.map HEffect.toEvent
            ++ on_error_events { caller1 with exception := some e })
    ∧ ({ caller1 with exception := some e } : Caller).exception = some e
    ∧ (on_error_events { caller1 with exception := some e }).filter isErrorHookCall
        = [.errorHookCall { caller1 with exception := some e }]
    ∧ (effs.map HEffect.toEvent).filter isErrorHookCall = [] := by
  refine ⟨?_, rfl, rfl, hEffect_filter_err effs⟩
  simp [candidateLoop, hok, hcap, hh]

/-- Witness for C5 at a concrete registry: handler 31 faults with error 7 and
the loop proceeds to the sibling candidate. -/
theorem handler_fault_isolation_witness :
    candidateLoop envC5 pEmpty (cmdErrW :: [cmdAfterW]) callerC5 0 []
      = candidateLoop envC5 pEmpty [cmdAfterW] { callerC5 with exception := some 7 } (0 + 1)
          ([] ++ [HEffect.effect 31].map HEffect.toEvent
            ++ on_error_events { callerC5 with exception := some 7 })
    ∧ ({ callerC5 with exception := some 7 } : Caller).exception = some 7
    ∧ (on_error_events { callerC5 with exception := some 7 }).filter isErrorHookCall
        = [.errorHookCall { callerC5 with exception := some 7 }]
    ∧ ([HEffect.effect 31].map HEffect.toEvent).filter isErrorHookCall = [] :=
  handler_fault_isolation envC5 pEmpty cmdErrW [cmdAfterW] callerC5 callerC5 0 []
    [.effect 31] 7 rfl rfl rfl

/-- Claim C7: when the pre-command hook vetoes the caller, `handle_line`
returns no value, emits no event at all (no notification, no catch-all), and
leaves the caller untokenized. -/
theorem pre_command_veto_stops_everything (env : Env) (p : Parser) (conn : Nat) (line : String)
    (hpre : p.pre_command (mkCaller conn (substituteLine p line)) = false) :
    handle_line env p conn line
      = { parser := p, trace := [], result := none,
          caller := mkCaller conn (substituteLine p line) } := by
  simp only [handle_line]
  rw [hpre, if_neg Bool.false_ne_true]

/-- Witness for C7 with an always-vetoing parser. -/
theorem pre_command_veto_stops_everything_witness :
    handle_line envW pVeto 0 "hi"
      = { parser := pVeto, trace := [], result := none,
          caller := mkCaller 0 (substituteLine pVeto "hi") } :=
  pre_command_veto_stops_everything envW pVeto 0 "hi" rfl

/-- A parser with the substitution table `{'"': "say"}`. -/
def pSub : Parser := { command_substitutions := [('"', "say")] }

/-- Claim C6: a non-empty line whose first character is a substitution key is
replaced by the mapped name, the separator and the rest of the line — so the
resolved token is the mapped name (for the single-character separator, when
the name does not contain it) — while a line whose first character is not a
key, or the empty line, is left untouched. -/
theorem substitution_resolves_token (env : Env) (p : Parser) (conn : Nat) (line : String) :
    (handle_line env p conn line).caller.text = substituteLine p line
    ∧ (∀ c cs v s, line.data = c :: cs → alookup p.command_substitutions c = some v →
        p.command_separator = String.mk [s] → s ∉ v.data →
        substituteLine p line = v ++ p.command_separator ++ String.mk cs
          ∧ (p.split (substituteLine p line)).1 = v)
    ∧ (∀ c cs, line.data = c :: cs → alookup p.command_substitutions c = none →
        substituteLine p line = line)
    ∧ (line.data = [] → substituteLine p line = line) := by
  refine ⟨handle_line_text env p conn line, ?_, (substituteLine_miss p line).1,
    (substituteLine_miss p line).2⟩
  intro c cs v s h1 h2 hsep hv
  have hsub := substituteLine_hit p line c cs v h1 h2
  refine ⟨hsub, ?_⟩
  rw [hsub, split_token p s hsep v (String.mk cs) hv]

/-- Witness for C6 on the spec's scenario `'"hello'` with `{'"': "say"}`, and
on an untouched line. -/
theorem substitution_resolves_token_witness :
    (handle_line envW pSub 0 "\"hello").caller.text = substituteLine pSub "\"hello"
    ∧ substituteLine pSub "\"hello"
        = "say" ++ pSub.command_separator ++ String.mk ['h', 'e', 'l', 'l', 'o']
    ∧ (pSub.split (substituteLine pSub "\"hello")).1 = "say"
    ∧ substituteLine pSub "nope" = "nope" := by
  have h := substitution_resolves_token envW pSub 0 "\"hello"
  have h2 := h.2.1 '"' ['h', 'e', 'l', 'l', 'o'] "say" ' ' (by decide) (by decide)
    (by decide) (by decide)
  exact ⟨h.1, h2.1, h2.2,
    (substitution_resolves_token envW pSub 0 "nope").2.2.1 'n' ['o', 'p', 'e']
      (by decide) (by decide)⟩

/-- A parser whose substitution table could fire twice if expansion were
iterated: `a ↦ bb` and then `b ↦ cc`. -/
def pChain : Parser := { command_substitutions := [('a', "bb"), ('b', "cc")] }

/-- Claim C10: substitution expansion happens at most once per
`handle_line` call — the caller's line is the once-expanded line, and even
when that line begins with another substitution key (so a second expansion
would change it), the second expansion is not applied. -/
theorem substitution_applied_once (env : Env) (p : Parser) (conn : Nat) (line : String)
    (c : Char) (cs : List Char) (v : String)
    (h1 : line.data = c :: cs) (h2 : alookup p.command_substitutions c = some v) :
    (handle_line env p conn line).caller.text = v ++ p.command_separator ++ String.mk cs
    ∧ (substituteLine p (v ++ p.command_separator ++ String.mk cs)
          ≠ v ++ p.command_separator ++ String.mk cs →
        (handle_line env p conn line).caller.text
          ≠ substituteLine p (v ++ p.command_separator ++ String.mk cs)) := by
  have ht : (handle_line env p conn line).caller.text
      = v ++ p.command_separator ++ String.mk cs := by
    rw [handle_line_text, substituteLine_hit p line c cs v h1 h2]
  exact ⟨ht, fun hne => by rw [ht]; exact fun he => hne he.symm⟩

/-- Witness for C10 on `pChain` and line `ax`: the expansion gives `bb x`,
whose first character is again a key, yet no second expansion happens. -/
theorem substitution_applied_once_witness :
    (handle_line envW pChain 0 "ax").caller.text
      = "bb" ++ pChain.command_separator ++ String.mk ['x']
    ∧ (handle_line envW pChain 0 "ax").caller.text
        ≠ substituteLine pChain ("bb" ++ pChain.command_separator ++ String.mk ['x']) := by
  have h := substitution_applied_once envW pChain 0 "ax" 'a' ['x'] "bb" (by decide) (by decide)
  exact ⟨h.1, h.2 (by decide)⟩

/-- The command of the spec scenario: `say` with a pattern (id 0). -/
def sayCmdX : Command := ⟨10, ["say"], "descA", "helpA", some 0, none⟩

/-- Environment whose pattern 0 never matches (as `/.+/` on an empty
remainder). -/
def envC3 : Env := ⟨fun _ _ => ([], .ok), fun _ _ => none, fun _ _ => true⟩

/-- Registry `{"say": [sayCmdX]}`. -/
def pC3 : Parser := { commands := [("say", [sayCmdX])] }

/-- Claim C3 counterexample: on input `say` (empty remainder) the pattern
fails, the loop stops via break with matched-count 0 (`result = none`), the
trace is the explanation — and the catch-all hook does not fire even though
the matched-count is zero, refuting the "if" direction of the iff. -/
theorem catch_all_iff_cex :
    (handle_line envC3 pC3 7 "say").result = none
    ∧ (handle_line envC3 pC3 7 "say").trace.filter isHuhCall = []
    ∧ (handle_line envC3 pC3 7 "say").trace = explain pC3 sayCmdX 7 := by decide

/-- Claim C3 as amended: the catch-all hook fires if and only if the
candidate iteration ends by exhaustion (no break) *and* the matched-count is
zero; in particular the catch-all still implies matched-count zero, but a
pattern no-match break with matched-count zero fires `explain`, not the
catch-all. -/
theorem catch_all_iff_exhausted_zero (env : Env) (p : Parser) (conn : Nat) (line : String)
    (tok rest : String) (r : LoopResult)
    (hpre : p.pre_command (mkCaller conn (substituteLine p line)) = true)
    (hsplit : p.split (substituteLine p line) = (tok, rest))
    (hr : candidateLoop env p (get_commands p tok)
        { connection := conn, text := substituteLine p line, command := tok,
          args_str := rest, args := [], kwargs := [], exception := none } 0 [] = r) :
    (handle_line env p conn line).trace.filter isHuhCall ≠ []
      ↔ (r.broke = false ∧ r.count = 0) := by
  have hfil : r.trace.filter isHuhCall = [] := by
    rw [← hr, candidateLoop_filter_huh]
    rfl
  simp only [handle_line]
  rw [hpre, if_pos rfl, hsplit]
  dsimp only [mkCaller]
  rw [hr]
  by_cases hcond : r.broke = false ∧ r.count = 0
  · rw [if_pos hcond, List.filter_append, hfil, huh_events_filter_huh]
    simp [hcond]
  · rw [if_neg hcond, hfil]
    simp [hcond]

/-- Witness for the amended C3: with an empty registry the loop exhausts with
count zero and the catch-all fires. -/
theorem catch_all_iff_exhausted_zero_witness :
    (handle_line envW pEmpty 0 "foo bar").trace.filter isHuhCall ≠ [] :=
  (catch_all_iff_exhausted_zero envW pEmpty 0 "foo bar" "foo" "bar"
    ⟨[], 0, ⟨0, "foo bar", "foo", "bar", [], [], none⟩, false⟩
    rfl (by decide) (by decide)).mpr ⟨rfl, rfl⟩

theorem candidateLoop_dontStop_step (env : Env) (p : Parser) (cmd : Command)
    (rest : List Command) (caller caller1 : Caller) (k : Nat) (tr : List Event)
    (effs : List HEffect)
    (hok : Command.ok_for env cmd caller = true)
    (hcap : applyCaptures env cmd caller = some caller1)
    (hh : env.handlers cmd.func caller1 = (effs, .dontStop)) :
    candidateLoop env p (cmd :: rest) caller k tr
      = candidateLoop env p rest caller1 (k + 1) (tr ++ effs.map HEffect.toEvent) := by
  simp [candidateLoop, hok, hcap, hh]

theorem candidateLoop_ok_step (env : Env) (p : Parser) (cmd : Command)
    (rest : List Command) (caller caller1 : Caller) (k : Nat) (tr : List Event)
    (effs : List HEffect)
    (hok : Command.ok_for env cmd caller = true)
    (hcap : applyCaptures env cmd caller = some caller1)
    (hh : env.handlers cmd.func caller1 = (effs, .ok)) :
    candidateLoop env p (cmd :: rest) caller k tr
      = ⟨tr ++ effs.map HEffect.toEvent, k + 1, caller1, true⟩ := by
  simp [candidateLoop, hok, hcap, hh]

/-- First command of the continuation scenario: handler 1 raises the
continuation signal. -/
def look1 : Command := ⟨1, ["look"], "d1", "h1", none, none⟩

/-- Second command of the continuation scenario: handler 2 completes. -/
def look2 : Command := ⟨2, ["look"], "d2", "h2", none, none⟩

/-- Environment for the continuation scenario. -/
def envC1 : Env :=
  ⟨fun hid _ => if hid = 1 then ([.effect 1], .dontStop) else ([.effect 2], .ok),
    fun _ _ => none, fun _ _ => true⟩

/-- Registry `{"look": [look1, look2]}`. -/
def pC1 : Parser := { commands := [("look", [look1, look2])] }

/-- Claim C1 counterexample: with two commands named `look`, the first
raising the continuation signal unconditionally and the second completing,
`handle_line` returns a matched-count of 2 — not 1 as claimed — because the
counter is incremented before each handler runs, so the continuation-raising
candidate is counted too.  Both side effects are observed, the first
before the second. -/
theorem continuation_counts_cex :
    (handle_line envC1 pC1 0 "look").result ≠ some 1
    ∧ (handle_line envC1 pC1 0 "look").result = some 2
    ∧ (handle_line envC1 pC1 0 "look").trace = [.effect 1, .effect 2] := by decide

/-- Claim C1 as amended: in the two-candidate continuation scenario the
matched-count is 2 (each candidate whose pattern step succeeds is counted,
including the one that raises the continuation signal); the first handler's
side effects are observed before the second handler's, and the second
handler's side effects are observed. -/
theorem continuation_scenario (env : Env) (p : Parser) (conn : Nat) (line tok rest : String)
    (cmd1 cmd2 : Command) (es1 es2 : List HEffect)
    (hsub : substituteLine p line = line)
    (hpre : p.pre_command (mkCaller conn line) = true)
    (hsplit : p.split line = (tok, rest))
    (hreg : get_commands p tok = [cmd1, cmd2])
    (ha1 : cmd1.allowed = none) (hr1 : cmd1.args_regexp = none)
    (ha2 : cmd2.allowed = none) (hr2 : cmd2.args_regexp = none)
    (hh1 : env.handlers cmd1.func
      ⟨conn, line, tok, rest, [], [], none⟩ = (es1, .dontStop))
    (hh2 : env.handlers cmd2.func
      ⟨conn, line, tok, rest, [], [], none⟩ = (es2, .ok)) :
    handle_line env p conn line
      = { parser := p, trace := es1.map HEffect.toEvent ++ es2.map HEffect.toEvent,
          result := some 2,
          caller := ⟨conn, line, tok, rest, [], [], none⟩ } := by
  have hok1 : Command.ok_for env cmd1 ⟨conn, line, tok, rest, [], [], none⟩ = true := by
    simp [Command.ok_for, ha1]
  have hok2 : Command.ok_for env cmd2 ⟨conn, line, tok, rest, [], [], none⟩ = true := by
    simp [Command.ok_for, ha2]
  have hcap1 : applyCaptures env cmd1 ⟨conn, line, tok, rest, [], [], none⟩
      = some ⟨conn, line, tok, rest, [], [], none⟩ := by
    simp [applyCaptures, hr1]
  have hcap2 : applyCaptures env cmd2 ⟨conn, line, tok, rest, [], [], none⟩
      = some ⟨conn, line, tok, rest, [], [], none⟩ := by
    simp [applyCaptures, hr2]
  simp only [handle_line, hsub]
  rw [hpre, if_pos rfl, hsplit]
  dsimp only [mkCaller]
  rw [hreg, candidateLoop_dontStop_step env p cmd1 [cmd2] _ _ 0 [] es1 hok1 hcap1 hh1,
    candidateLoop_ok_step env p cmd2 [] _ _ (0 + 1) _ es2 hok2 hcap2 hh2]
  simp

/-- Witness for the amended C1 on the concrete scenario registry. -/
theorem continuation_scenario_witness :
    handle_line envC1 pC1 0 "look"
      = { parser := pC1,
          trace := [HEffect.effect 1].map HEffect.toEvent
            ++ [HEffect.effect 2].map HEffect.toEvent,
          result := some 2,
          caller := ⟨0, "look", "look", "", [], [], none⟩ } :=
  continuation_scenario envC1 pC1 0 "look" "look" "" look1 look2 [.effect 1] [.effect 2]
    (by decide) rfl (by decide) (by decide) rfl rfl rfl rfl (by decide) (by decide)

/-- Pre-filled defaults with a `description`. -/
def dfsC2 : List (String × KwVal) := [("description", .description "D")]

/-- Caller-supplied kwargs that collide on `description`. -/
def kwC2 : List (String × KwVal) := [("description", .description "K"), ("help", .help "H")]

/-- The decorated function of the C2 scenario. -/
def fC2 : Func := ⟨3, some "go", none⟩

/-- Claim C2 counterexample: when the caller-supplied `description` value
`K` collides with the pre-filled default `D`, the registered command carries
`D` — the pre-filled default wins, not the caller-supplied value — while the
collision is still warned about. -/
theorem default_wins_cex :
    (default_kwargs_reg pEmpty dfsC2 fC2 kwC2).2.description = "D"
    ∧ (default_kwargs_reg pEmpty dfsC2 fC2 kwC2).2.description ≠ "K"
    ∧ (default_kwargs_apply dfsC2 kwC2).2 = ["description"] := by decide

/-- Claim C2 as amended: for every colliding key, the value registered is the
pre-filled default's (the assignment `kw[key] = value` overwrites the
caller-supplied value), and the collision is reported as a non-fatal warning;
in particular a colliding `description` default is the description of the
registered command. -/
theorem default_wins_merge (p : Parser) (f : Func) (defaults kw : List (String × KwVal))
    (k : String)
    (hnd : (defaults.map Prod.fst).Nodup)
    (hd : (alookup defaults k).isSome) (hk : (alookup kw k).isSome) :
    alookup (default_kwargs_apply defaults kw).1 k = alookup defaults k
    ∧ k ∈ (default_kwargs_apply defaults kw).2
    ∧ (∀ d, k = "description" → alookup defaults k = some (.description d) →
        (default_kwargs_reg p defaults f kw).2.description = d) := by
  have hmain := dk_fold_main defaults k hnd (kw, []) hd hk
  refine ⟨hmain.1, hmain.2, ?_⟩
  intro d hkd hdv
  subst hkd
  unfold default_kwargs_reg commandReg
  dsimp only
  rw [show alookup (default_kwargs_apply defaults kw).1 "description"
    = some (KwVal.description d) from hmain.1.trans hdv]

/-- Witness for the amended C2 on the concrete colliding registration. -/
theorem default_wins_merge_witness :
    alookup (default_kwargs_apply dfsC2 kwC2).1 "description" = alookup dfsC2 "description"
    ∧ "description" ∈ (default_kwargs_apply dfsC2 kwC2).2
    ∧ (default_kwargs_reg pEmpty dfsC2 fC2 kwC2).2.description = "D" := by
  have h := default_wins_merge pEmpty fC2 dfsC2 kwC2 "description"
    (by decide) (by decide) (by decide)
  exact ⟨h.1, h.2.1, h.2.2 "D" rfl (by decide)⟩

/-- The decorated function of the C8 fixture. -/
def fC8 : Func := ⟨5, some "go", none⟩

/-- Registration kwargs with two names. -/
def kwC8 : List (String × KwVal) := [("names", .names ["a", "b"])]

/-- A parser that already has a command under name `a`. -/
def pC8 : Parser := { commands := [("a", [look1])] }

/-- Claim C8: registration appends the constructed Command to the registry
entry of every one of its (distinct) names — creating the entry when absent
and preserving order — leaves every other entry and the substitution table
untouched, and `handle_line` never changes the parser (the resulting parser
is the one it was given; the pure translation reflects that the source
assigns to no parser attribute). -/
theorem registration_appends_under_every_name (p : Parser) (f : Func)
    (kw : List (String × KwVal)) (hnd : (commandReg p f kw).2.names.Nodup) :
    (∀ n ∈ (commandReg p f kw).2.names,
      dictGetD (commandReg p f kw).1.commands n []
        = dictGetD p.commands n [] ++ [(commandReg p f kw).2])
    ∧ (∀ n, n ∉ (commandReg p f kw).2.names →
      dictGetD (commandReg p f kw).1.commands n [] = dictGetD p.commands n [])
    ∧ (commandReg p f kw).1.command_substitutions = p.command_substitutions
    ∧ (∀ env conn line, (handle_line env p conn line).parser = p) := by
  have hfold := reg_fold (commandReg p f kw).2 (commandReg p f kw).2.names hnd p.commands
  refine ⟨fun n hn => hfold.1 n hn, fun n hn => hfold.2 n hn, rfl, ?_⟩
  intro env conn line
  simp only [handle_line]
  split
  · rcases hsp : Parser.split p (substituteLine p line) with ⟨tok, rest⟩
    rfl
  · rfl

/-- Witness for C8 at a concrete registration of names `a` and `b` over a
registry that already holds a command under `a`. -/
theorem registration_appends_under_every_name_witness :
    dictGetD (commandReg pC8 fC8 kwC8).1.commands "a" []
      = dictGetD pC8.commands "a" [] ++ [(commandReg pC8 fC8 kwC8).2]
    ∧ dictGetD (commandReg pC8 fC8 kwC8).1.commands "zz" [] = dictGetD pC8.commands "zz" []
    ∧ (handle_line envW pC8 0 "a").parser = pC8 := by
  have h := registration_appends_under_every_name pC8 fC8 kwC8 (by decide)
  exact ⟨h.1 "a" (by decide), h.2.1 "zz" (by decide), h.2.2.2 envW 0 "a"⟩

/-- Claim C9: `all_commands` returns each distinct Command exactly once, in
order of first occurrence while traversing the registry's name lists in
insertion order — it equals the first-occurrence deduplication of the
concatenated lists, is duplicate-free, and holds exactly the commands
appearing in some registry entry. -/
theorem all_commands_distinct_first_occurrence (p : Parser) :
    all_commands p = keepFirstOccurrences (p.commands.flatMap Prod.snd)
    ∧ (all_commands p).Nodup
    ∧ ∀ c : Command, c ∈ all_commands p ↔ ∃ e ∈ p.commands, c ∈ e.2 := by
  have h1 : all_commands p = (p.commands.flatMap Prod.snd).foldl insertAbsent [] :=
    foldl_insertAbsent_flat p.commands []
  refine ⟨?_, ?_, ?_⟩
  · rw [h1, foldl_insertAbsent_keepFirst, List.nil_append]
    congr 1
    exact List.filter_eq_self.mpr (fun a _ => by simp)
  · rw [h1]
    exact foldl_insertAbsent_nodup _ [] List.nodup_nil
  · intro c
    rw [h1, mem_foldl_insertAbsent]
    simp [List.mem_flatMap]
